import Mathlib

/-!
Shallow embedding of `src/pagerank.py` (the PageRank ranking core) and proofs
about it. Python dicts are modelled as ordered association lists (dict key
order is observable by the code), Python sets as `Finset`, Python floats as
exact rationals `ℚ`, Python exceptions as explicit error values, and the
`random` module as an injected source of choices.
-/

namespace PageRank

variable {α : Type} [DecidableEq α]

/-- A corpus is the Python dict mapping each page to the set of pages it links
to, kept as an ordered association list because dict iteration order matters
to the code (the sampler and the solver both iterate over it). -/
abbrev Corpus (α : Type) := List (α × Finset α)

/-- The key list of a corpus, in dict order. -/
def corpusKeys (c : Corpus α) : List α := c.map Prod.fst

/-- Dict indexing `corpus[page]`; `none` models the Python `KeyError` raised
when `page` is not a key. -/
def lookupLinks (c : Corpus α) (page : α) : Option (Finset α) :=
  (c.find? (fun e => decide (e.1 = page))).map Prod.snd

/-- Python error kinds observable from the embedded functions. `invalidInput`
is the checked error the specification prescribes; the other three are the
unguarded exceptions the interpreter raises. -/
inductive PyErr where
  | keyError
  | indexError
  | zeroDivision
  | invalidInput
  deriving DecidableEq

instance {ε σ : Type} [DecidableEq ε] [DecidableEq σ] :
    DecidableEq (Except ε σ) := fun a b =>
  match a, b with
  | .error e, .error f =>
    if h : e = f then isTrue (congrArg Except.error h)
    else isFalse (fun hc => h (Except.error.inj hc))
  | .error _, .ok _ => isFalse (fun hc => Except.noConfusion hc)
  | .ok _, .error _ => isFalse (fun hc => Except.noConfusion hc)
  | .ok u, .ok v =>
    if h : u = v then isTrue (congrArg Except.ok h)
    else isFalse (fun hc => h (Except.ok.inj hc))

/-- Embedding of `transition_model` (src/pagerank.py lines 52-89). The result
is the next-page distribution as an ordered list of (page, probability)
entries, one per corpus key in dict order; `none` is the `KeyError` on
`corpus[page]` when `page` is not a key of the corpus. -/
def transition_model (corpus : Corpus α) (page : α) (damping_factor : ℚ) :
    Option (List (α × ℚ)) :=
  match lookupLinks corpus page with
  | none => none
  | some linkedPages =>
    let base0 : ℚ := 1 / (corpus.length : ℚ)
    let baseProbability : ℚ :=
      if linkedPages.card ≠ 0 then base0 * (1 - damping_factor) else base0
    let additionalProbability : ℚ :=
      if linkedPages.card ≠ 0 then (1 / (linkedPages.card : ℚ)) * damping_factor
      else 0
    some (corpus.map (fun e =>
      (e.1, if e.1 ∈ linkedPages then baseProbability + additionalProbability
            else baseProbability)))

/-- State-passing form of `transition_model`: the pair is (corpus after the
call, returned value). The function body contains no assignment into the
corpus, so the corpus passes through unchanged. -/
def transition_model_full (corpus : Corpus α) (page : α) (damping_factor : ℚ) :
    Corpus α × Option (List (α × ℚ)) :=
  (corpus, transition_model corpus page damping_factor)

/-- A source of randomness standing for the Python `random` module:
`choice` models `random.choice(population)` and `choices` models
`random.choices(population, weights)[0]`. -/
structure RandomSource (α : Type) where
  choice : List α → α
  choices : List α → List ℚ → α

/-- A random source is well formed when it returns an element of the
population it is given, as the real `random` module does. -/
def WellFormedSource (ρ : RandomSource α) : Prop :=
  (∀ l : List α, l ≠ [] → ρ.choice l ∈ l) ∧
  (∀ (l : List α) (w : List ℚ), l ≠ [] → ρ.choices l w ∈ l)

/-- The sampling loop of `sample_pagerank` (lines 114-132): perform the given
number of steps from `prevSample`, appending each new sample to the
accumulated sample list; a `KeyError` from `transition_model` propagates. -/
def sampleWalk (ρ : RandomSource α) (corpus : Corpus α) (damping_factor : ℚ) :
    ℕ → α → List α → Except PyErr (List α)
  | 0, _, sample => .ok sample
  | steps + 1, prevSample, sample =>
    match transition_model corpus prevSample damping_factor with
    | none => .error .keyError
    | some prevDistribution =>
      let allPages := prevDistribution.map Prod.fst
      let probabilities := prevDistribution.map Prod.snd
      let newSample := ρ.choices allPages probabilities
      sampleWalk ρ corpus damping_factor steps newSample (sample ++ [newSample])

/-- Embedding of `sample_pagerank` (lines 92-135). `n` is a Python int, so an
integer; `range(1, n)` runs `max (n-1) 0` times. `random.choice` of an empty
page list is the `IndexError` on an empty corpus. The final dict comprehension
over `set(sample)` divides each visit count by `n`, which is the
`ZeroDivisionError` when `n = 0` (the sample list is never empty there); its
keys are the distinct visited pages (Python set order is unspecified, the
embedding lists them in `dedup` order). -/
def sample_pagerank (ρ : RandomSource α) (corpus : Corpus α)
    (damping_factor : ℚ) (n : ℤ) : Except PyErr (List (α × ℚ)) :=
  let allPages := corpusKeys corpus
  if allPages.isEmpty then .error .indexError
  else
    let firstSample := ρ.choice allPages
    match sampleWalk ρ corpus damping_factor (n - 1).toNat firstSample
        [firstSample] with
    | .error e => .error e
    | .ok sample =>
      if n = 0 then .error .zeroDivision
      else .ok (sample.dedup.map (fun i => (i, (sample.count i : ℚ) / (n : ℚ))))

/-- State-passing form of `sample_pagerank`: the function body contains no
assignment into the corpus, so the corpus passes through unchanged. -/
def sample_pagerank_full (ρ : RandomSource α) (corpus : Corpus α)
    (damping_factor : ℚ) (n : ℤ) : Corpus α × Except PyErr (List (α × ℚ)) :=
  (corpus, sample_pagerank ρ corpus damping_factor n)

/-- The dangling-node preprocessing of `iterate_pagerank` (lines 150-153):
every page whose out-link set is empty has it replaced in place by the set of
all keys of the corpus (the keys themselves never change during that loop). -/
def normalizeCorpus (c : Corpus α) : Corpus α :=
  c.map (fun e => (e.1, if e.2 = ∅ then (corpusKeys c).toFinset else e.2))

/-- The summation of lines 158-167 for one page: over every corpus entry whose
out-link set contains `page` (the pages with inward links to `page`, in dict
order), sum rank(q) / |out-links(q)|, reading ranks from the given
distribution. Corpus keys are unique, so using each entry's own stored set
for `corpus[subPage]` is exact. -/
def inwardSum (c : Corpus α) (dist : α → ℚ) (page : α) : ℚ :=
  ((c.filter (fun e => decide (page ∈ e.2))).map
    (fun e => dist e.1 / (e.2.card : ℚ))).sum

/-- Round a rational to the nearest integer, ties to even, as Python `round`
does. -/
def roundHalfEven (q : ℚ) : ℤ :=
  if q - q.floor < 1 / 2 then q.floor
  else if (1 : ℚ) / 2 < q - q.floor then q.floor + 1
  else if q.floor % 2 = 0 then q.floor else q.floor + 1

/-- Python `round(x, 5)` over exact rationals. -/
def pyRound5 (q : ℚ) : ℚ := (roundHalfEven (q * 100000) : ℚ) / 100000

/-- The per-page assignment of lines 158-171: `page` is overwritten with
`round((1-d)/N + d * sum, 5)` where the sum reads the current, partially
updated distribution; all other pages keep their current value. -/
def sweepStep (c : Corpus α) (damping_factor : ℚ) (dist : α → ℚ) (page : α) :
    α → ℚ :=
  fun x =>
    if x = page then
      pyRound5 ((1 - damping_factor) / (c.length : ℚ) +
        damping_factor * inwardSum c dist page)
    else dist x

/-- One full sweep of the while-loop body of `iterate_pagerank` (lines
158-171): the pages are updated sequentially in dict order, each update
reading the distribution as already modified by the updates before it. -/
def sweep (c : Corpus α) (damping_factor : ℚ) (dist : α → ℚ) : α → ℚ :=
  (corpusKeys c).foldl (sweepStep c damping_factor) dist

/-- The distribution reached after sequentially updating just the pages of
`pre`, in order, starting from `dist`. -/
def sweepPrefix (c : Corpus α) (damping_factor : ℚ) (dist : α → ℚ)
    (pre : List α) : α → ℚ :=
  pre.foldl (sweepStep c damping_factor) dist

/-- Follows the specification's words (spec 4.3), for comparison with the
code's `sweep`: the simultaneous sweep, in which every corpus page's new rank
is computed from the previous distribution only. -/
def sweepSimultaneousSpec (c : Corpus α) (damping_factor : ℚ) (dist : α → ℚ) :
    α → ℚ :=
  fun x =>
    if x ∈ corpusKeys c then
      pyRound5 ((1 - damping_factor) / (c.length : ℚ) +
        damping_factor * inwardSum c dist x)
    else dist x

/-- Python dict equality between two rank dicts sharing the key list `keys`:
equal exactly when the values agree on every key. -/
def distEq (keys : List α) (f g : α → ℚ) : Bool :=
  keys.all (fun k => decide (f k = g k))

/-- The while-loop of `iterate_pagerank` (lines 156-171), fuelled: sweep, then
stop as soon as the new distribution equals the one before the sweep; `none`
models running out of fuel before the convergence test succeeds. -/
def iterLoop (c : Corpus α) (damping_factor : ℚ) :
    ℕ → (α → ℚ) → Option (α → ℚ)
  | 0, _ => none
  | fuel + 1, dist =>
    let dist2 := sweep c damping_factor dist
    if distEq (corpusKeys c) dist2 dist then some dist2
    else iterLoop c damping_factor fuel dist2

/-- The distribution computed by `iterate_pagerank` (lines 138-173). The
initial dict assigns 1/N to every key; on an empty corpus the comprehension
evaluates no division, the initial dict is `{}`, the while-condition
`{} != {}` fails at once and the empty dict is returned. On a non-empty
corpus the first comparison against the initially empty prior dict always
succeeds, so at least one sweep runs, over the normalized corpus. -/
def iterate_result (corpus : Corpus α) (damping_factor : ℚ) (fuel : ℕ) :
    Option (List (α × ℚ)) :=
  let keys := corpusKeys corpus
  let dist0 : α → ℚ := fun _ => 1 / (corpus.length : ℚ)
  let c2 := normalizeCorpus corpus
  if keys.isEmpty then some []
  else
    match iterLoop c2 damping_factor fuel dist0 with
    | none => none
    | some f => some (keys.map (fun k => (k, f k)))

/-- State-passing form of `iterate_pagerank`: the pair is (corpus as left by
the call, returned distribution). The only assignments into the corpus are
the dangling-node replacements of lines 150-153, so the corpus comes out
normalized. -/
def iterate_pagerank_full (corpus : Corpus α) (damping_factor : ℚ)
    (fuel : ℕ) : Corpus α × Option (List (α × ℚ)) :=
  (normalizeCorpus corpus, iterate_result corpus damping_factor fuel)

/-- The distribution returned by `iterate_pagerank`. -/
def iterate_pagerank (corpus : Corpus α) (damping_factor : ℚ) (fuel : ℕ) :
    Option (List (α × ℚ)) :=
  (iterate_pagerank_full corpus damping_factor fuel).2

/-- `iterate_pagerank` invoked with the ambient random-module state `_ρ` that
every function of the script can reach; the body of `iterate_pagerank` makes
no call into the random module, so the state is never consulted. -/
def iterate_pagerank_run (_ρ : RandomSource α) (corpus : Corpus α)
    (damping_factor : ℚ) (fuel : ℕ) : Option (List (α × ℚ)) :=
  iterate_pagerank corpus damping_factor fuel

/-- A deterministic random source over pages numbered by naturals: always
picks the head of the population. It is well formed. -/
def headSource : RandomSource ℕ :=
  { choice := fun l => l.headD 0, choices := fun l _ => l.headD 0 }

/-- Concrete two-page corpus 0 ↦ {0, 1}, 1 ↦ {0} used as test input. -/
def twoPageCorpus : Corpus ℕ := [(0, {0, 1}), (1, {0})]

/-- Concrete corpus with a dangling page: 0 ↦ {}, 1 ↦ {0}. -/
def danglingCorpus : Corpus ℕ := [(0, ∅), (1, {0})]

/-- Concrete one-page corpus with a self link. -/
def selfLoopCorpus : Corpus ℕ := [(0, {0})]

/-! ### Helper lemmas -/

lemma corpusKeys_cons (e : α × Finset α) (c : Corpus α) :
    corpusKeys (e :: c) = e.1 :: corpusKeys c := rfl

lemma corpusKeys_normalize (c : Corpus α) :
    corpusKeys (normalizeCorpus c) = corpusKeys c := by
  simp [corpusKeys, normalizeCorpus]

lemma lookupLinks_eq (c : Corpus α) (page : α) (L : Finset α)
    (hnd : (corpusKeys c).Nodup) (hmem : (page, L) ∈ c) :
    lookupLinks c page = some L := by
  induction c with
  | nil => cases hmem
  | cons e c ih =>
    rw [corpusKeys_cons, List.nodup_cons] at hnd
    rcases List.mem_cons.1 hmem with h | h
    · rw [← h]
      simp [lookupLinks, List.find?]
    · have hpk : page ∈ corpusKeys c := by
        have := List.mem_map_of_mem Prod.fst h
        simpa [corpusKeys] using this
      have hne : ¬ (e.1 = page) := fun hq => hnd.1 (hq ▸ hpk)
      have ht := ih hnd.2 h
      simp only [lookupLinks, List.find?] at ht ⊢
      simp [hne, ht]

lemma lookupLinks_isSome (c : Corpus α) (page : α) (h : page ∈ corpusKeys c) :
    ∃ L, lookupLinks c page = some L := by
  induction c with
  | nil => cases h
  | cons e c ih =>
    by_cases he : e.1 = page
    · exact ⟨e.2, by simp [lookupLinks, List.find?, he]⟩
    · have hpk : page ∈ corpusKeys c := by
        rw [corpusKeys_cons] at h
        rcases List.mem_cons.1 h with h1 | h1
        · exact absurd h1.symm he
        · exact h1
      obtain ⟨L, hL⟩ := ih hpk
      refine ⟨L, ?_⟩
      simp only [lookupLinks, List.find?] at hL ⊢
      simp [he, hL]

lemma transition_model_keys (c : Corpus α) (p : α) (d : ℚ)
    (dist : List (α × ℚ)) (h : transition_model c p d = some dist) :
    dist.map Prod.fst = corpusKeys c := by
  unfold transition_model at h
  cases hl : lookupLinks c p with
  | none => rw [hl] at h; cases h
  | some L =>
    rw [hl] at h
    simp only [Option.some.injEq] at h
    subst h
    simp [corpusKeys, List.map_map, Function.comp]

lemma map_cond_sum (c : List (α × Finset α)) (L : Finset α) (b a : ℚ) :
    (c.map (fun e => if e.1 ∈ L then b + a else b)).sum
      = (c.length : ℚ) * b
        + ((corpusKeys c).countP (fun k => decide (k ∈ L)) : ℚ) * a := by
  induction c with
  | nil => simp [corpusKeys]
  | cons e c ih =>
    by_cases h : e.1 ∈ L <;>
      simp only [List.map_cons, List.sum_cons, corpusKeys_cons,
        List.countP_cons, ih, List.length_cons] <;>
      simp [h] <;> push_cast <;> ring

lemma map_const_sum (c : List (α × Finset α)) (b : ℚ) :
    (c.map (fun _ => b)).sum = (c.length : ℚ) * b := by
  induction c with
  | nil => simp
  | cons e c ih =>
    simp [ih]
    push_cast
    ring

lemma transition_model_eq (c : Corpus α) (page : α) (L : Finset α) (d : ℚ)
    (hl : lookupLinks c page = some L) :
    transition_model c page d = some (c.map (fun e =>
      (e.1, if e.1 ∈ L then
        (if L.card ≠ 0 then 1 / (c.length : ℚ) * (1 - d)
         else 1 / (c.length : ℚ))
          + (if L.card ≠ 0 then 1 / (L.card : ℚ) * d else 0)
        else
        (if L.card ≠ 0 then 1 / (c.length : ℚ) * (1 - d)
         else 1 / (c.length : ℚ))))) := by
  unfold transition_model
  rw [hl]

lemma transition_model_eq_pos (c : Corpus α) (page : α) (L : Finset α) (d : ℚ)
    (hl : lookupLinks c page = some L) (hcard : L.card ≠ 0) :
    transition_model c page d = some (c.map (fun e =>
      (e.1, if e.1 ∈ L then
        1 / (c.length : ℚ) * (1 - d) + 1 / (L.card : ℚ) * d
      else 1 / (c.length : ℚ) * (1 - d)))) := by
  rw [transition_model_eq c page L d hl]
  simp [hcard]

lemma transition_model_eq_zero (c : Corpus α) (page : α) (d : ℚ)
    (hl : lookupLinks c page = some (∅ : Finset α)) :
    transition_model c page d
      = some (c.map (fun e => (e.1, 1 / (c.length : ℚ)))) := by
  rw [transition_model_eq c page ∅ d hl]
  simp

lemma map_snd_pair (c : List (α × Finset α)) (g : α × Finset α → ℚ) :
    ((c.map (fun e => (e.1, g e))).map Prod.snd) = c.map g := by
  rw [List.map_map]
  congr 1

lemma countP_mem_eq_card (keys : List α) (L : Finset α) (hnd : keys.Nodup)
    (hsub : L ⊆ keys.toFinset) :
    keys.countP (fun k => decide (k ∈ L)) = L.card := by
  rw [List.countP_eq_length_filter]
  have h1 : (keys.filter (fun k => decide (k ∈ L))).Nodup := hnd.filter _
  rw [← List.toFinset_card_of_nodup h1, List.toFinset_filter]
  have h2 : keys.toFinset.filter (fun k => decide (k ∈ L)) = L := by
    have h3 : keys.toFinset.filter (fun k => k ∈ L) = L := by
      rw [Finset.filter_mem_eq_inter, Finset.inter_eq_right.mpr hsub]
    simpa using h3
  rw [h2]

/-! ### Claims -/

/-- C4: for a non-empty corpus, a page of the corpus with out-link set L and
damping factor d in (0,1), transition_model gives every page 1/N when L is
empty, and otherwise gives linked pages (1-d)/N + d/|L| and unlinked pages
(1-d)/N. -/
theorem transition_model_link_structure (c : Corpus α) (page : α)
    (L : Finset α) (d : ℚ) (hc : c ≠ []) (hnd : (corpusKeys c).Nodup)
    (hmem : (page, L) ∈ c) (hd0 : 0 < d) (hd1 : d < 1) :
    ∃ dist, transition_model c page d = some dist ∧
      (L = ∅ → ∀ p ∈ dist, p.2 = 1 / (c.length : ℚ)) ∧
      (L ≠ ∅ → ∀ p ∈ dist,
        (p.1 ∈ L → p.2 = (1 - d) / (c.length : ℚ) + d / (L.card : ℚ)) ∧
        (p.1 ∉ L → p.2 = (1 - d) / (c.length : ℚ))) := by
  have hl := lookupLinks_eq c page L hnd hmem
  by_cases hL : L = ∅
  · subst hL
    refine ⟨_, transition_model_eq_zero c page d hl, ?_, ?_⟩
    · intro _ p hp
      simp only [List.mem_map] at hp
      obtain ⟨e, _, rfl⟩ := hp
      rfl
    · intro hfalse
      exact absurd rfl hfalse
  · have hcard : L.card ≠ 0 := fun h => hL (Finset.card_eq_zero.mp h)
    refine ⟨_, transition_model_eq_pos c page L d hl hcard, ?_, ?_⟩
    · intro hfalse
      exact absurd hfalse hL
    · intro _ p hp
      simp only [List.mem_map] at hp
      obtain ⟨e, _, rfl⟩ := hp
      refine ⟨fun hmem2 => ?_, fun hmem2 => ?_⟩
      · show (if e.1 ∈ L then
            1 / (c.length : ℚ) * (1 - d) + 1 / (L.card : ℚ) * d
          else 1 / (c.length : ℚ) * (1 - d))
          = (1 - d) / (c.length : ℚ) + d / (L.card : ℚ)
        rw [if_pos hmem2]
        ring
      · show (if e.1 ∈ L then
            1 / (c.length : ℚ) * (1 - d) + 1 / (L.card : ℚ) * d
          else 1 / (c.length : ℚ) * (1 - d))
          = (1 - d) / (c.length : ℚ)
        rw [if_neg hmem2]
        ring

/-- C4 witness at the two-page corpus, page 1, out-links {0}, d = 17/20. -/
theorem transition_model_link_structure_witness :
    (twoPageCorpus ≠ [] ∧ (corpusKeys twoPageCorpus).Nodup ∧
      ((1 : ℕ), ({0} : Finset ℕ)) ∈ twoPageCorpus ∧
      (0 : ℚ) < 17 / 20 ∧ (17 : ℚ) / 20 < 1) ∧
    (∃ dist, transition_model twoPageCorpus 1 (17 / 20) = some dist ∧
      (({0} : Finset ℕ) = ∅ →
        ∀ p ∈ dist, p.2 = 1 / (twoPageCorpus.length : ℚ)) ∧
      (({0} : Finset ℕ) ≠ ∅ → ∀ p ∈ dist,
        (p.1 ∈ ({0} : Finset ℕ) →
          p.2 = (1 - 17 / 20) / (twoPageCorpus.length : ℚ)
            + (17 / 20) / ((({0} : Finset ℕ).card : ℚ))) ∧
        (p.1 ∉ ({0} : Finset ℕ) →
          p.2 = (1 - 17 / 20) / (twoPageCorpus.length : ℚ)))) :=
  ⟨⟨by decide, by decide, by decide, by norm_num, by norm_num⟩,
    transition_model_link_structure twoPageCorpus 1 {0} (17 / 20)
      (by decide) (by decide) (by decide) (by norm_num) (by norm_num)⟩

/-- C5: for a non-empty corpus satisfying the data-model invariant, a page of
the corpus and a damping factor in (0,1), transition_model returns a mapping
with exactly N entries — one per corpus page, in dict order — all of whose
values are nonnegative and sum to exactly 1 over rational arithmetic. -/
theorem transition_model_is_distribution (c : Corpus α) (page : α)
    (L : Finset α) (d : ℚ) (hc : c ≠ []) (hnd : (corpusKeys c).Nodup)
    (hmem : (page, L) ∈ c) (hsub : L ⊆ (corpusKeys c).toFinset)
    (hd0 : 0 < d) (hd1 : d < 1) :
    ∃ dist, transition_model c page d = some dist ∧
      dist.length = c.length ∧ dist.map Prod.fst = corpusKeys c ∧
      (∀ p ∈ dist, 0 ≤ p.2) ∧ (dist.map Prod.snd).sum = 1 := by
  have hN : (c.length : ℚ) ≠ 0 := by
    have h0 : c.length ≠ 0 := fun h => hc (List.length_eq_zero.mp h)
    exact_mod_cast h0
  have hl := lookupLinks_eq c page L hnd hmem
  have h1d : (0 : ℚ) ≤ 1 - d := by linarith
  have hNpos : (0 : ℚ) ≤ 1 / (c.length : ℚ) := by positivity
  by_cases hL : L = ∅
  · subst hL
    refine ⟨_, transition_model_eq_zero c page d hl, ?_,
      transition_model_keys c page d _ (transition_model_eq_zero c page d hl),
      ?_, ?_⟩
    · simp
    · intro p hp
      simp only [List.mem_map] at hp
      obtain ⟨e, _, rfl⟩ := hp
      exact hNpos
    · rw [map_snd_pair, map_const_sum]
      field_simp
  · have hcard : L.card ≠ 0 := fun h => hL (Finset.card_eq_zero.mp h)
    have hk : (L.card : ℚ) ≠ 0 := by exact_mod_cast hcard
    refine ⟨_, transition_model_eq_pos c page L d hl hcard, ?_,
      transition_model_keys c page d _
        (transition_model_eq_pos c page L d hl hcard), ?_, ?_⟩
    · simp
    · intro p hp
      simp only [List.mem_map] at hp
      obtain ⟨e, _, rfl⟩ := hp
      show (0 : ℚ) ≤ (if e.1 ∈ L then
          1 / (c.length : ℚ) * (1 - d) + 1 / (L.card : ℚ) * d
        else 1 / (c.length : ℚ) * (1 - d))
      by_cases hm : e.1 ∈ L
      · rw [if_pos hm]
        exact add_nonneg (mul_nonneg hNpos h1d)
          (mul_nonneg (by positivity) hd0.le)
      · rw [if_neg hm]
        exact mul_nonneg hNpos h1d
    · rw [map_snd_pair, map_cond_sum,
        countP_mem_eq_card (corpusKeys c) L hnd hsub]
      field_simp

/-- C5 witness at the two-page corpus, page 1, out-links {0}, d = 17/20. -/
theorem transition_model_is_distribution_witness :
    (twoPageCorpus ≠ [] ∧ (corpusKeys twoPageCorpus).Nodup ∧
      ((1 : ℕ), ({0} : Finset ℕ)) ∈ twoPageCorpus ∧
      ({0} : Finset ℕ) ⊆ (corpusKeys twoPageCorpus).toFinset ∧
      (0 : ℚ) < 17 / 20 ∧ (17 : ℚ) / 20 < 1) ∧
    (∃ dist, transition_model twoPageCorpus 1 (17 / 20) = some dist ∧
      dist.length = twoPageCorpus.length ∧
      dist.map Prod.fst = corpusKeys twoPageCorpus ∧
      (∀ p ∈ dist, 0 ≤ p.2) ∧ (dist.map Prod.snd).sum = 1) :=
  ⟨⟨by decide, by decide, by decide, by decide, by norm_num, by norm_num⟩,
    transition_model_is_distribution twoPageCorpus 1 {0} (17 / 20)
      (by decide) (by decide) (by decide) (by decide) (by norm_num)
      (by norm_num)⟩

/-- C6: before iterating, iterate_pagerank replaces the out-link set of every
dangling page by the set of all corpus pages, the dangling page itself
included, and leaves every page with a non-empty out-link set unchanged. -/
theorem dangling_node_normalization (c : Corpus α) (d : ℚ) (fuel : ℕ)
    (e : α × Finset α) (he : e ∈ c) :
    (iterate_pagerank_full c d fuel).1 = normalizeCorpus c ∧
    (normalizeCorpus c).length = c.length ∧
    (e.2 = ∅ → (e.1, (corpusKeys c).toFinset) ∈ normalizeCorpus c ∧
      e.1 ∈ (corpusKeys c).toFinset) ∧
    (e.2 ≠ ∅ → e ∈ normalizeCorpus c) := by
  refine ⟨rfl, by simp [normalizeCorpus], fun h0 => ⟨?_, ?_⟩, fun h1 => ?_⟩
  · have hm := List.mem_map_of_mem
      (fun e : α × Finset α =>
        (e.1, if e.2 = ∅ then (corpusKeys c).toFinset else e.2)) he
    simpa [normalizeCorpus, h0] using hm
  · have hm : e.1 ∈ corpusKeys c := List.mem_map_of_mem Prod.fst he
    exact List.mem_toFinset.mpr hm
  · have hm := List.mem_map_of_mem
      (fun e : α × Finset α =>
        (e.1, if e.2 = ∅ then (corpusKeys c).toFinset else e.2)) he
    simpa [normalizeCorpus, h1] using hm

/-- C6 witness at the corpus 0 ↦ {}, 1 ↦ {0} and its dangling entry. -/
theorem dangling_node_normalization_witness :
    (((0 : ℕ), (∅ : Finset ℕ)) ∈ danglingCorpus) ∧
    ((iterate_pagerank_full danglingCorpus (17 / 20) 5).1
        = normalizeCorpus danglingCorpus ∧
      (normalizeCorpus danglingCorpus).length = danglingCorpus.length ∧
      ((∅ : Finset ℕ) = ∅ →
        ((0 : ℕ), (corpusKeys danglingCorpus).toFinset)
            ∈ normalizeCorpus danglingCorpus ∧
          (0 : ℕ) ∈ (corpusKeys danglingCorpus).toFinset) ∧
      ((∅ : Finset ℕ) ≠ ∅ →
        ((0 : ℕ), (∅ : Finset ℕ)) ∈ normalizeCorpus danglingCorpus)) :=
  ⟨by decide,
    dangling_node_normalization danglingCorpus (17 / 20) 5 (0, ∅) (by decide)⟩

/-- C8: iterate_pagerank is deterministic: its result depends only on the
corpus, the damping factor and the fuel, never on the state of the ambient
source of randomness. -/
theorem iterate_pagerank_deterministic (ρ₁ ρ₂ : RandomSource α)
    (c : Corpus α) (d : ℚ) (fuel : ℕ) :
    iterate_pagerank_run ρ₁ c d fuel = iterate_pagerank_run ρ₂ c d fuel := rfl

/-- C9: transition_model and sample_pagerank leave the corpus unchanged; the
only mutation of the corpus anywhere in the core is iterate_pagerank's
dangling-node normalization, which leaves it in normalized form. -/
theorem corpus_mutation_frame (ρ : RandomSource α) (c : Corpus α) (page : α)
    (d : ℚ) (n : ℤ) (fuel : ℕ) :
    (transition_model_full c page d).1 = c ∧
    (sample_pagerank_full ρ c d n).1 = c ∧
    (iterate_pagerank_full c d fuel).1 = normalizeCorpus c :=
  ⟨rfl, rfl, rfl⟩

/-- C3: on the empty corpus neither function signals a checked InvalidInput
error: iterate_pagerank returns the empty mapping without failing at all, and
sample_pagerank fails with the unguarded IndexError of random.choice on an
empty list. -/
theorem empty_corpus_no_invalid_input (ρ : RandomSource α) (d : ℚ) (n : ℤ)
    (fuel : ℕ) :
    iterate_pagerank ([] : Corpus α) d fuel = some [] ∧
    sample_pagerank ρ ([] : Corpus α) d n = .error .indexError ∧
    Except.error PyErr.indexError
      ≠ (Except.error PyErr.invalidInput : Except PyErr (List (α × ℚ))) :=
  ⟨rfl, rfl, fun h => PyErr.noConfusion (Except.error.inj h)⟩

/-- C2: a concrete failing run for the sampler's output coverage: on the
two-page corpus with one sample the walk visits only page 0, and the returned
mapping has no entry for page 1 at all instead of an entry with rank 0. -/
theorem sample_pagerank_omits_unvisited :
    sample_pagerank headSource twoPageCorpus (17 / 20) 1
      = .ok [((0 : ℕ), (1 : ℚ))] ∧
    (1 : ℕ) ∈ corpusKeys twoPageCorpus ∧
    (1 : ℕ) ∉ ([((0 : ℕ), (1 : ℚ))].map Prod.fst) :=
  ⟨by with_unfolding_all decide, by decide, by decide⟩

/-- C7 counterexample: sample count 0 is not rejected as InvalidInput; the
run reaches the final division by n and fails with ZeroDivisionError. -/
theorem sample_pagerank_n_zero_unguarded :
    sample_pagerank headSource twoPageCorpus (17 / 20) 0
      = .error .zeroDivision ∧
    Except.error PyErr.zeroDivision
      ≠ (Except.error PyErr.invalidInput : Except PyErr (List (ℕ × ℚ))) :=
  ⟨rfl, by decide⟩

lemma corpusKeys_ne_nil (c : Corpus α) (hc : c ≠ []) : corpusKeys c ≠ [] :=
  fun h => hc (List.map_eq_nil.mp h)

lemma headSource_wellFormed : WellFormedSource headSource := by
  constructor
  · intro l hl
    cases l with
    | nil => exact absurd rfl hl
    | cons a l => exact List.mem_cons_self a l
  · intro l w hl
    cases l with
    | nil => exact absurd rfl hl
    | cons a l => exact List.mem_cons_self a l

lemma sampleWalk_ok (ρ : RandomSource α) (c : Corpus α) (d : ℚ)
    (hρ : WellFormedSource ρ) (hc : corpusKeys c ≠ []) :
    ∀ (steps : ℕ) (prev : α) (acc : List α), prev ∈ corpusKeys c →
      ∃ s, sampleWalk ρ c d steps prev acc = .ok s := by
  intro steps
  induction steps with
  | zero => exact fun prev acc _ => ⟨acc, rfl⟩
  | succ k ih =>
    intro prev acc hprev
    obtain ⟨L, hL⟩ := lookupLinks_isSome c prev hprev
    obtain ⟨dist, htm⟩ : ∃ dist, transition_model c prev d = some dist :=
      ⟨_, transition_model_eq c prev L d hL⟩
    have hkeys := transition_model_keys c prev d dist htm
    have hnil : dist.map Prod.fst ≠ [] := by rw [hkeys]; exact hc
    have hnew : ρ.choices (dist.map Prod.fst) (dist.map Prod.snd)
        ∈ corpusKeys c := by
      rw [← hkeys]
      exact hρ.2 _ _ hnil
    obtain ⟨s, hs⟩ := ih (ρ.choices (dist.map Prod.fst) (dist.map Prod.snd))
      (acc ++ [ρ.choices (dist.map Prod.fst) (dist.map Prod.snd)]) hnew
    refine ⟨s, ?_⟩
    rw [sampleWalk, htm]
    exact hs

/-- C7 amended: sample_pagerank performs no validation of its sample count n:
with a non-empty corpus, n = 0 produces an unguarded ZeroDivisionError rather
than a checked InvalidInput, while every n ≥ 1 (with a well-formed random
source) returns a result without failing. -/
theorem sample_pagerank_no_validation (ρ : RandomSource α) (c : Corpus α)
    (d : ℚ) (n : ℤ) (hρ : WellFormedSource ρ) (hc : c ≠ []) :
    sample_pagerank ρ c d 0 = .error .zeroDivision ∧
    (1 ≤ n → ∃ out, sample_pagerank ρ c d n = .ok out) := by
  have hkeys := corpusKeys_ne_nil c hc
  have hie : ¬ ((corpusKeys c).isEmpty = true) := by
    intro h
    exact hkeys (List.isEmpty_iff.mp h)
  constructor
  · unfold sample_pagerank
    rw [if_neg hie]
    rfl
  · intro hn
    have hfirst : ρ.choice (corpusKeys c) ∈ corpusKeys c := hρ.1 _ hkeys
    obtain ⟨s, hs⟩ := sampleWalk_ok ρ c d hρ hkeys (n - 1).toNat
      (ρ.choice (corpusKeys c)) [ρ.choice (corpusKeys c)] hfirst
    refine ⟨s.dedup.map (fun i => (i, (s.count i : ℚ) / (n : ℚ))), ?_⟩
    unfold sample_pagerank
    rw [if_neg hie]
    dsimp only
    rw [hs]
    dsimp only
    rw [if_neg (by omega : ¬ n = 0)]

/-- C7 amended witness at the two-page corpus, head-picking source, n = 3. -/
theorem sample_pagerank_no_validation_witness :
    (WellFormedSource headSource ∧ twoPageCorpus ≠ []) ∧
    (sample_pagerank headSource twoPageCorpus (17 / 20) 0
        = .error .zeroDivision ∧
      (1 ≤ (3 : ℤ) → ∃ out,
        sample_pagerank headSource twoPageCorpus (17 / 20) 3 = .ok out)) :=
  ⟨⟨headSource_wellFormed, by decide⟩,
    sample_pagerank_no_validation headSource twoPageCorpus (17 / 20) 3
      headSource_wellFormed (by decide)⟩

/-- C1 counterexample: at the corpus 0 ↦ {0,1}, 1 ↦ {0} with damping 17/20,
starting from the uniform distribution, the code's sweep gives page 1 the
value 0.37781, computed from page 0's value as already updated earlier in the
same sweep, while a simultaneous sweep from the previous distribution gives
page 1 the value 0.2875. -/
theorem sweep_not_simultaneous :
    sweep twoPageCorpus (17 / 20) (fun _ => (1 : ℚ) / 2) 1
      ≠ sweepSimultaneousSpec twoPageCorpus (17 / 20)
          (fun _ => (1 : ℚ) / 2) 1 := by
  with_unfolding_all decide

lemma sweepSteps_notMem (c : Corpus α) (d : ℚ) (l : List α) (f : α → ℚ)
    (x : α) (hx : x ∉ l) : l.foldl (sweepStep c d) f x = f x := by
  induction l generalizing f with
  | nil => rfl
  | cons a l ih =>
    have hxa : x ≠ a := fun h => hx (h ▸ List.mem_cons_self a l)
    have hxl : x ∉ l := fun h => hx (List.mem_cons_of_mem a h)
    rw [List.foldl_cons, ih _ hxl]
    simp [sweepStep, hxa]

/-- C1 amended: the solver's sweep is sequential-in-place: when the dict key
order lists `pre` before `page`, the value the sweep gives `page` is computed
by the per-page formula from the distribution as already modified by the
updates of all the pages of `pre` in this same sweep (the previous iteration's
distribution is used only where no earlier update overwrote it). -/
theorem sweep_sequential_update (c : Corpus α) (d : ℚ) (dist : α → ℚ)
    (pre post : List α) (page : α)
    (hkeys : corpusKeys c = pre ++ page :: post) (hpost : page ∉ post) :
    sweep c d dist page
      = pyRound5 ((1 - d) / (c.length : ℚ)
          + d * inwardSum c (sweepPrefix c d dist pre) page) := by
  unfold sweep sweepPrefix
  rw [hkeys, List.foldl_append, List.foldl_cons,
    sweepSteps_notMem c d post _ page hpost]
  simp [sweepStep]

/-- C1 amended witness at the two-page corpus: page 1's update reads page 0's
value as already rewritten by the same sweep. -/
theorem sweep_sequential_update_witness :
    (corpusKeys twoPageCorpus = [0] ++ 1 :: [] ∧ (1 : ℕ) ∉ ([] : List ℕ)) ∧
    sweep twoPageCorpus (17 / 20) (fun _ => (1 : ℚ) / 2) 1
      = pyRound5 ((1 - 17 / 20) / (twoPageCorpus.length : ℚ)
          + (17 / 20) * inwardSum twoPageCorpus
              (sweepPrefix twoPageCorpus (17 / 20)
                (fun _ => (1 : ℚ) / 2) [0]) 1) :=
  ⟨⟨by decide, by decide⟩,
    sweep_sequential_update twoPageCorpus (17 / 20) (fun _ => (1 : ℚ) / 2)
      [0] [] 1 (by decide) (by decide)⟩

lemma sweepSteps_rounded (c : Corpus α) (d : ℚ) (l : List α) (f : α → ℚ)
    (x : α) (hx : x ∈ l) :
    ∃ q : ℚ, l.foldl (sweepStep c d) f x = pyRound5 q := by
  induction l generalizing f with
  | nil => cases hx
  | cons a l ih =>
    by_cases hxl : x ∈ l
    · exact ih _ hxl
    · have hxa : x = a := by
        rcases List.mem_cons.1 hx with h | h
        · exact h
        · exact absurd h hxl
      subst hxa
      rw [List.foldl_cons, sweepSteps_notMem c d l _ x hxl]
      refine ⟨(1 - d) / (c.length : ℚ) + d * inwardSum c f x, ?_⟩
      simp [sweepStep]

lemma iterLoop_rounded (c : Corpus α) (d : ℚ) :
    ∀ (fuel : ℕ) (dist f : α → ℚ), iterLoop c d fuel dist = some f →
      ∀ x ∈ corpusKeys c, ∃ q : ℚ, f x = pyRound5 q := by
  intro fuel
  induction fuel with
  | zero => intro dist f h; cases h
  | succ k ih =>
    intro dist f h x hx
    rw [iterLoop] at h
    by_cases hcond : distEq (corpusKeys c) (sweep c d dist) dist = true
    · rw [if_pos hcond] at h
      cases h
      exact sweepSteps_rounded c d (corpusKeys c) dist x hx
    · rw [if_neg hcond] at h
      exact ih _ _ h x hx

lemma pyRound5_multiple (q : ℚ) : ∃ m : ℤ, pyRound5 q = (m : ℚ) / 100000 :=
  ⟨roundHalfEven (q * 100000), rfl⟩

/-- C10: every rank value in a mapping returned by iterate_pagerank is an
exact integer multiple of 10^-5 over exact rational arithmetic: the final
sweep wrote every page's value through round(_, 5) before the convergence
test succeeded, so callers never observe unrounded intermediate values. -/
theorem iterate_pagerank_values_rounded (c : Corpus α) (d : ℚ) (fuel : ℕ)
    (out : List (α × ℚ)) (hout : iterate_pagerank c d fuel = some out) :
    ∀ p ∈ out, ∃ m : ℤ, p.2 = (m : ℚ) / 100000 := by
  intro p hp
  have hres : iterate_result c d fuel = some out := hout
  unfold iterate_result at hres
  by_cases hk : (corpusKeys c).isEmpty = true
  · rw [if_pos hk] at hres
    injection hres with h
    rw [← h] at hp
    cases hp
  · rw [if_neg hk] at hres
    cases hloop : iterLoop (normalizeCorpus c) d fuel
        (fun _ => 1 / (c.length : ℚ)) with
    | none => rw [hloop] at hres; cases hres
    | some f =>
      rw [hloop] at hres
      injection hres with h
      rw [← h] at hp
      simp only [List.mem_map] at hp
      obtain ⟨k, hk2, rfl⟩ := hp
      have hk3 : k ∈ corpusKeys (normalizeCorpus c) := by
        rw [corpusKeys_normalize]
        exact hk2
      obtain ⟨q, hq⟩ := iterLoop_rounded (normalizeCorpus c) d fuel _ f
        hloop k hk3
      obtain ⟨m, hm⟩ := pyRound5_multiple q
      refine ⟨m, ?_⟩
      show f k = (m : ℚ) / 100000
      rw [hq]
      exact hm

set_option maxRecDepth 10000 in
lemma iterate_selfLoop_eval :
    iterate_pagerank selfLoopCorpus (17 / 20) 1
      = some [((0 : ℕ), (1 : ℚ))] := by
  with_unfolding_all decide

/-- C10 witness at the one-page self-loop corpus: the run converges in one
sweep to the value 1, an integer multiple of 10^-5. -/
theorem iterate_pagerank_values_rounded_witness :
    (iterate_pagerank selfLoopCorpus (17 / 20) 1
        = some [((0 : ℕ), (1 : ℚ))]) ∧
    (((0 : ℕ), (1 : ℚ)) ∈ [((0 : ℕ), (1 : ℚ))]) ∧
    (∃ m : ℤ, ((0 : ℕ), (1 : ℚ)).2 = (m : ℚ) / 100000) :=
  ⟨iterate_selfLoop_eval, by decide,
    iterate_pagerank_values_rounded selfLoopCorpus (17 / 20) 1
      [((0 : ℕ), (1 : ℚ))] iterate_selfLoop_eval (0, 1) (by decide)⟩

end PageRank
